import Mathlib

/-!
Verification of the AstraNote client layer and data model.

The definitions below are shallow embeddings of:
* the `ApiClient` singleton in the frontend utility module
  (request/response interceptors, token refresh on 401, correlation ids,
  `validatePassword`);
* the zustand auth store (`useAuthStore.login`);
* the SQL schema of the `queries` table (the `user_rating` CHECK constraint);
* the Document Lifecycle Manager and Query Orchestrator, which are backend
  components whose code is not present in the repository snapshot; those two
  are modelled from the specification, as marked in their doc comments.
-/

namespace AstraNote

/-- Configuration of one axios request as the `ApiClient` interceptors see it:
the caller's `skipAuth` opt-out flag, the `Authorization` header and the
`X-Correlation-ID` header.  Correlation-id values are modelled as natural
numbers; the code builds each one from `Date.now()` plus a random suffix, and
what matters to the claims is that every call of `generateCorrelationId`
produces a fresh value, modelled below as a draw from a counter. -/
structure RequestConfig where
  skipAuth : Bool
  authorization : Option String
  correlationId : Option Nat
deriving DecidableEq, Repr

/-- State of the `ApiClient` singleton together with the browser facilities it
touches: the in-memory `authToken` field, the two localStorage keys
`access_token` and `refresh_token`, whether `window.location.href` has been
set to the login page, the number of refresh POSTs issued so far, and the
counter from which `generateCorrelationId` draws. -/
structure ClientState where
  authToken : Option String
  lsAccess : Option String
  lsRefresh : Option String
  redirectedToLogin : Bool
  refreshCalls : Nat
  corrCounter : Nat
deriving DecidableEq, Repr

/-- The request interceptor (`setupInterceptors`, request side): attaches
`Bearer` + token when a token is held and the caller did not opt out, and
always stamps a freshly generated correlation id. -/
def requestInterceptor (st : ClientState) (cfg : RequestConfig) :
    ClientState × RequestConfig :=
  let cfg1 :=
    match st.authToken, cfg.skipAuth with
    | some t, false => { cfg with authorization := some ("Bearer " ++ t) }
    | _, _ => cfg
  let cfg2 := { cfg1 with correlationId := some st.corrCounter }
  ({ st with corrCounter := st.corrCounter + 1 }, cfg2)

/-- `clearAuthToken`: null the in-memory token and remove both localStorage
keys. -/
def clearAuthToken (st : ClientState) : ClientState :=
  { st with authToken := none, lsAccess := none, lsRefresh := none }

/-- `saveAuthToken`: set the in-memory token and persist it under
`access_token`. -/
def saveAuthToken (st : ClientState) (t : String) : ClientState :=
  { st with authToken := some t, lsAccess := some t }

/-- Outcome of the authentication issuer's refresh endpoint: a new token pair,
or a rejection (any thrown error in the `try` block). -/
inductive RefreshOutcome where
  | success (accessToken refreshToken : String)
  | failure
deriving DecidableEq, Repr

/-- The config of the refresh POST issued inside `handleTokenExpiration`:
`skipAuth` is set, so the request interceptor never attaches the access
token to it. -/
def refreshConfig : RequestConfig :=
  { skipAuth := true, authorization := none, correlationId := none }

/-- `handleTokenExpiration`: if no refresh token is stored, clear the session
and redirect to the login page; otherwise issue one refresh POST (which runs
through the request interceptor with `refreshConfig`), and on success store the
new access and refresh tokens, on failure clear the session and redirect.
The `ApiClient` class holds no in-flight flag or memoised promise, so each
invocation issues its own refresh POST. -/
def handleTokenExpiration (st : ClientState) (issuer : RefreshOutcome) :
    ClientState :=
  match st.lsRefresh with
  | none => { clearAuthToken st with redirectedToLogin := true }
  | some _ =>
      let st1 := (requestInterceptor st refreshConfig).1
      let st2 := { st1 with refreshCalls := st1.refreshCalls + 1 }
      match issuer with
      | .success a r => { saveAuthToken st2 a with lsRefresh := some r }
      | .failure => { clearAuthToken st2 with redirectedToLogin := true }

/-- What the promise of one `ApiClient` request settles to: data from the
server, a resolution with `undefined` (the bare `return;` in the response
interceptor's 401 branch), or a rejection carrying the HTTP status. -/
inductive ReqResult (α : Type) where
  | data (value : α)
  | undefinedResolved
  | rejected (status : Option Nat)
deriving DecidableEq, Repr

/-- The response interceptor's error handler: on a 401 for a request that did
not opt out of auth, it awaits `handleTokenExpiration` and then executes a bare
`return;`, resolving the original request's promise with `undefined` — it does
not re-issue the original request.  Every other error is rejected onward. -/
def onResponseError (st : ClientState) (cfg : RequestConfig)
    (status : Option Nat) (issuer : RefreshOutcome) :
    ClientState × ReqResult String :=
  if status = some 401 ∧ cfg.skipAuth = false then
    (handleTokenExpiration st issuer, .undefinedResolved)
  else
    (st, .rejected status)

/-- Reply of the server to the first (and, in this client, only) send of a
request. -/
inductive ServerReply where
  | ok (value : String)
  | httpError (status : Nat)
deriving DecidableEq, Repr

/-- One request through `ApiClient`: the request interceptor runs, the server
replies, and on an HTTP error the response interceptor's error handler runs. -/
def runRequest (st : ClientState) (cfg : RequestConfig)
    (reply : ServerReply) (issuer : RefreshOutcome) :
    ClientState × ReqResult String :=
  let p := requestInterceptor st cfg
  match reply with
  | .ok v => (p.1, .data v)
  | .httpError s => onResponseError p.1 p.2 (some s) issuer

/-- A plain request config: no opt-out, no headers set yet. -/
def plainConfig : RequestConfig :=
  { skipAuth := false, authorization := none, correlationId := none }

/-- A client state holding an access token and a refresh token, nothing
issued yet. -/
def sessionState : ClientState :=
  { authToken := some "tok0", lsAccess := some "tok0", lsRefresh := some "rt0",
    redirectedToLogin := false, refreshCalls := 0, corrCounter := 0 }

/-- Two concurrent requests both fail with 401 and both enter
`handleTokenExpiration`; since the class holds no single-flight guard, the
invocations are independent.  This is the serialised interleaving (the second
caller starts after the first caller's refresh resolved), which is the most
favourable one for the deduplication claim. -/
def twoConcurrentUnauthorized (st : ClientState)
    (issuer1 issuer2 : RefreshOutcome) : ClientState :=
  handleTokenExpiration (handleTokenExpiration st issuer1) issuer2

/-- C1: evaluation of the client at the claim's scenario.  Two concurrent
requests each receive a 401 while a refresh token is stored and the issuer
accepts both refreshes; the unauthorized handler issues two refresh calls, not
the single deduplicated one the claim describes, because `ApiClient` holds no
in-flight flag or memoised refresh promise — this holds already in the most
favourable, fully serialised interleaving. -/
theorem c1_concurrent_unauthorized_issues_two_refresh_calls :
    (twoConcurrentUnauthorized sessionState
      (RefreshOutcome.success "a1" "r1")
      (RefreshOutcome.success "a2" "r2")).refreshCalls = 2 := rfl

/-- C2: evaluation at the claim's scenario.  A request fails with 401 while a
refresh token is stored and the refresh succeeds: the stored access and
refresh tokens are updated, but the original request is never retried — the
response interceptor's 401 branch resolves the original promise with
`undefined` instead of re-issuing the request. -/
theorem c2_refresh_updates_tokens_but_never_retries :
    (runRequest sessionState plainConfig (ServerReply.httpError 401)
      (RefreshOutcome.success "newAccess" "newRefresh")).2
        = ReqResult.undefinedResolved ∧
    (runRequest sessionState plainConfig (ServerReply.httpError 401)
      (RefreshOutcome.success "newAccess" "newRefresh")).1.authToken
        = some "newAccess" ∧
    (runRequest sessionState plainConfig (ServerReply.httpError 401)
      (RefreshOutcome.success "newAccess" "newRefresh")).1.lsRefresh
        = some "newRefresh" := by
  refine ⟨?_, ?_, ?_⟩ <;> rfl

/-- C3: whenever the refresh token is missing or the issuer rejects the
refresh, the unauthorized handler clears all session state (in-memory token
and both persisted tokens), redirects the caller to the login page, the 401
branch resolves the failed request with `undefined` rather than retrying it,
and any later pass of a request through the request interceptor attaches no
Authorization credential. -/
theorem c3_refresh_failure_clears_session (st : ClientState)
    (issuer : RefreshOutcome)
    (h : st.lsRefresh = none ∨ issuer = RefreshOutcome.failure) :
    (handleTokenExpiration st issuer).authToken = none ∧
    (handleTokenExpiration st issuer).lsAccess = none ∧
    (handleTokenExpiration st issuer).lsRefresh = none ∧
    (handleTokenExpiration st issuer).redirectedToLogin = true ∧
    (∀ cfg : RequestConfig, cfg.authorization = none →
      ((requestInterceptor (handleTokenExpiration st issuer) cfg).2).authorization
        = none) ∧
    (∀ cfg : RequestConfig, cfg.skipAuth = false →
      (onResponseError st cfg (some 401) issuer).2
        = ReqResult.undefinedResolved) := by
  have key : (handleTokenExpiration st issuer).authToken = none ∧
      (handleTokenExpiration st issuer).lsAccess = none ∧
      (handleTokenExpiration st issuer).lsRefresh = none ∧
      (handleTokenExpiration st issuer).redirectedToLogin = true := by
    rcases h with h | h
    · simp [handleTokenExpiration, h, clearAuthToken]
    · subst h
      cases hls : st.lsRefresh <;>
        simp [handleTokenExpiration, hls, clearAuthToken, requestInterceptor,
          saveAuthToken]
  refine ⟨key.1, key.2.1, key.2.2.1, key.2.2.2, ?_, ?_⟩
  · intro cfg hcfg
    simp [requestInterceptor, key.1, hcfg]
  · intro cfg hcfg
    simp [onResponseError, hcfg]

/-- C3 witness: a session holding tokens whose refresh is rejected by the
issuer ends cleared, redirected, unretried, and credential-free. -/
theorem c3_refresh_failure_clears_session_witness :
    (handleTokenExpiration sessionState RefreshOutcome.failure).authToken
      = none ∧
    (handleTokenExpiration sessionState RefreshOutcome.failure).lsAccess
      = none ∧
    (handleTokenExpiration sessionState RefreshOutcome.failure).lsRefresh
      = none ∧
    (handleTokenExpiration sessionState RefreshOutcome.failure).redirectedToLogin
      = true ∧
    ((requestInterceptor
        (handleTokenExpiration sessionState RefreshOutcome.failure)
        plainConfig).2).authorization = none ∧
    (onResponseError sessionState plainConfig (some 401)
        RefreshOutcome.failure).2 = ReqResult.undefinedResolved := by
  have h := c3_refresh_failure_clears_session sessionState RefreshOutcome.failure
    (Or.inr rfl)
  exact ⟨h.1, h.2.1, h.2.2.1, h.2.2.2.1, h.2.2.2.2.1 plainConfig rfl,
    h.2.2.2.2.2 plainConfig rfl⟩

/-- C4: the Authorization credential is attached if and only if a token is
held and the caller has not opted out; when attached it is Bearer plus the
held token; the refresh call's config opts out, so a refresh request never
carries the access token. -/
theorem c4_attach_iff_token_held_and_not_skipped (st : ClientState)
    (cfg : RequestConfig) (h : cfg.authorization = none) :
    (((requestInterceptor st cfg).2).authorization.isSome ↔
      st.authToken.isSome ∧ cfg.skipAuth = false) ∧
    (∀ t : String, st.authToken = some t → cfg.skipAuth = false →
      ((requestInterceptor st cfg).2).authorization
        = some ("Bearer " ++ t)) ∧
    refreshConfig.skipAuth = true ∧
    ((requestInterceptor st refreshConfig).2).authorization = none := by
  refine ⟨?_, ?_, rfl, ?_⟩
  · cases ha : st.authToken <;> cases hs : cfg.skipAuth <;>
      simp [requestInterceptor, ha, hs, h]
  · intro t ht hs
    simp [requestInterceptor, ht, hs]
  · cases ha : st.authToken <;> simp [requestInterceptor, refreshConfig, ha]

/-- C4 witness: with a held token and a plain request, the credential is
attached as Bearer plus the token; the refresh config carries none. -/
theorem c4_attach_iff_token_held_and_not_skipped_witness :
    (((requestInterceptor sessionState plainConfig).2).authorization.isSome ↔
      sessionState.authToken.isSome ∧ plainConfig.skipAuth = false) ∧
    ((requestInterceptor sessionState plainConfig).2).authorization
      = some ("Bearer " ++ "tok0") ∧
    refreshConfig.skipAuth = true ∧
    ((requestInterceptor sessionState refreshConfig).2).authorization
      = none := by
  have h := c4_attach_iff_token_held_and_not_skipped sessionState plainConfig rfl
  exact ⟨h.1, h.2.1 "tok0" rfl rfl, h.2.2.1, h.2.2.2⟩

/-- C8 counterexample: a retry of a failed request passes through the request
interceptor again and receives a freshly generated correlation identifier
different from the original's, so the retry is not stitched to the original
by a shared correlation id. -/
theorem c8_retry_gets_distinct_correlation_id :
    ((requestInterceptor sessionState plainConfig).2).correlationId
      = some 0 ∧
    ((requestInterceptor (requestInterceptor sessionState plainConfig).1
        plainConfig).2).correlationId = some 1 ∧
    ((requestInterceptor sessionState plainConfig).2).correlationId ≠
      ((requestInterceptor (requestInterceptor sessionState plainConfig).1
        plainConfig).2).correlationId := by
  refine ⟨rfl, rfl, ?_⟩
  intro hcontra
  have h2 : (some 0 : Option Nat) = some 1 := hcontra
  rw [Option.some.injEq] at h2
  omega

/-- C8 amended: every send of a request is stamped with a per-request
correlation identifier, freshly generated at each attempt; a second attempt
(e.g. a retry) of the same logical request receives a different identifier. -/
theorem c8_every_attempt_carries_fresh_correlation_id
    (st : ClientState) (cfg cfg2 : RequestConfig) :
    ((requestInterceptor st cfg).2).correlationId = some st.corrCounter ∧
    ((requestInterceptor (requestInterceptor st cfg).1 cfg2).2).correlationId
      = some (st.corrCounter + 1) ∧
    ((requestInterceptor st cfg).2).correlationId ≠
      ((requestInterceptor (requestInterceptor st cfg).1 cfg2).2).correlationId := by
  refine ⟨rfl, rfl, ?_⟩
  intro hcontra
  have h2 : (some st.corrCounter : Option Nat) = some (st.corrCounter + 1) :=
    hcontra
  rw [Option.some.injEq] at h2
  omega

/-- A token pair as returned by the login endpoint (the `Token` type of the
frontend, restricted to the fields the store uses). -/
structure TokenPair where
  accessToken : String
  refreshToken : String
deriving DecidableEq, Repr

/-- The slice of the zustand auth store that `login` reads and writes:
`user` (modelled by its numeric id), `token`, `isAuthenticated`, `isLoading`
and `error`. -/
structure AuthStoreState where
  user : Option Nat
  token : Option String
  isAuthenticated : Bool
  isLoading : Bool
  error : Option String
deriving DecidableEq, Repr

/-- How one run of `useAuthStore.login` unfolds: the credential exchange
throws (carrying the server's optional `detail` string), or the exchange
succeeds and the subsequent user-info fetch throws, or both succeed. -/
inductive LoginOutcome where
  | tokenFail (detail : Option String)
  | userFail (tok : TokenPair) (detail : Option String)
  | success (tok : TokenPair) (userId : Nat)
deriving DecidableEq, Repr

/-- Result of one `login` run: the store state afterwards, the token held by
the `ApiClient` afterwards (`setAuthToken` runs between the two awaits), the
persisted refresh token, and whether the error was rethrown to the caller. -/
structure LoginResult where
  store : AuthStoreState
  apiToken : Option String
  lsRefreshToken : Option String
  threw : Bool
deriving DecidableEq, Repr

/-- The error message recorded on a login failure:
`error.response?.data?.detail || 'Login failed'`. -/
def loginErrorMessage (detail : Option String) : String :=
  detail.getD "Login failed"

/-- `useAuthStore.login`: sets loading, exchanges credentials, stores the
access token in the api client, fetches the user, persists the refresh token
and fills the store; on any throw, the catch block overwrites the whole
auth slice with a signed-out state carrying the error message, and
rethrows. -/
def login (st : AuthStoreState) (apiToken0 lsRefresh0 : Option String)
    (o : LoginOutcome) : LoginResult :=
  match o with
  | .tokenFail d =>
      { store := { user := none, token := none, isAuthenticated := false,
                   isLoading := false, error := some (loginErrorMessage d) },
        apiToken := apiToken0, lsRefreshToken := lsRefresh0, threw := true }
  | .userFail tok d =>
      { store := { user := none, token := none, isAuthenticated := false,
                   isLoading := false, error := some (loginErrorMessage d) },
        apiToken := some tok.accessToken, lsRefreshToken := lsRefresh0,
        threw := true }
  | .success tok u =>
      { store := { user := some u, token := some tok.accessToken,
                   isAuthenticated := true, isLoading := false, error := none },
        apiToken := some tok.accessToken,
        lsRefreshToken := some tok.refreshToken, threw := false }

/-- The server detail carried by a failing login outcome, `none` for a
successful one. -/
def loginFailureDetail : LoginOutcome → Option (Option String)
  | .tokenFail d => some d
  | .userFail _ d => some d
  | .success _ _ => none

/-- C9: every failing login run — whether the credential exchange or the
user-info fetch throws — leaves the store with no user, no token and
`isAuthenticated` false (overwriting any previously authenticated session),
records the server's error detail (or the fallback message), and rethrows. -/
theorem c9_failed_login_clears_auth_state (st : AuthStoreState)
    (apiToken0 lsRefresh0 : Option String) (o : LoginOutcome)
    (d : Option String) (h : loginFailureDetail o = some d) :
    (login st apiToken0 lsRefresh0 o).store.user = none ∧
    (login st apiToken0 lsRefresh0 o).store.token = none ∧
    (login st apiToken0 lsRefresh0 o).store.isAuthenticated = false ∧
    (login st apiToken0 lsRefresh0 o).store.isLoading = false ∧
    (login st apiToken0 lsRefresh0 o).store.error
      = some (loginErrorMessage d) ∧
    (login st apiToken0 lsRefresh0 o).threw = true := by
  cases o with
  | tokenFail d0 =>
      simp only [loginFailureDetail, Option.some.injEq] at h
      subst h
      simp [login]
  | userFail tok d0 =>
      simp only [loginFailureDetail, Option.some.injEq] at h
      subst h
      simp [login]
  | success tok u => simp [loginFailureDetail] at h

/-- C9 witness: a previously authenticated store whose next login attempt is
rejected with a server detail ends signed out with that detail recorded. -/
theorem c9_failed_login_clears_auth_state_witness :
    (login ⟨some 7, some "oldTok", true, false, none⟩ (some "oldTok")
        (some "oldRt") (LoginOutcome.tokenFail (some "Bad credentials"))).store.user
      = none ∧
    (login ⟨some 7, some "oldTok", true, false, none⟩ (some "oldTok")
        (some "oldRt") (LoginOutcome.tokenFail (some "Bad credentials"))).store.token
      = none ∧
    (login ⟨some 7, some "oldTok", true, false, none⟩ (some "oldTok")
        (some "oldRt")
        (LoginOutcome.tokenFail (some "Bad credentials"))).store.isAuthenticated
      = false ∧
    (login ⟨some 7, some "oldTok", true, false, none⟩ (some "oldTok")
        (some "oldRt")
        (LoginOutcome.tokenFail (some "Bad credentials"))).store.isLoading
      = false ∧
    (login ⟨some 7, some "oldTok", true, false, none⟩ (some "oldTok")
        (some "oldRt") (LoginOutcome.tokenFail (some "Bad credentials"))).store.error
      = some (loginErrorMessage (some "Bad credentials")) ∧
    (login ⟨some 7, some "oldTok", true, false, none⟩ (some "oldTok")
        (some "oldRt") (LoginOutcome.tokenFail (some "Bad credentials"))).threw
      = true :=
  c9_failed_login_clears_auth_state ⟨some 7, some "oldTok", true, false, none⟩
    (some "oldTok") (some "oldRt")
    (LoginOutcome.tokenFail (some "Bad credentials")) (some "Bad credentials")
    rfl

/-- JavaScript's `.` without the `s` flag: any character except a line
terminator (newline, carriage return, U+2028, U+2029). -/
def jsDot (c : Char) : Bool :=
  !(c = '\n' || c = '\r' || c = ' ' || c = ' ')

/-- Matching of a lookahead body `.*X` anchored at the current position:
some later character satisfies `p` and everything before it is matched by
the JavaScript dot. -/
def dotStarThen (p : Char → Bool) : List Char → Bool
  | [] => false
  | c :: cs => p c || (jsDot c && dotStarThen p cs)

/-- The character class of the password regex:
lowercase or uppercase ASCII letter, ASCII digit, or one of the seven
special characters listed in the class. -/
def passwordChar (c : Char) : Bool :=
  ('a' ≤ c && c ≤ 'z') || ('A' ≤ c && c ≤ 'Z') || ('0' ≤ c && c ≤ '9') ||
    c = '@' || c = '$' || c = '!' || c = '%' || c = '*' || c = '?' || c = '&'

/-- `validatePassword`: the anchored regex with three lookaheads (a lowercase
letter somewhere, an uppercase letter somewhere, a digit somewhere) and a body
requiring at least eight characters drawn from the class, consuming the whole
string. -/
def validatePassword (s : String) : Bool :=
  dotStarThen (fun c => 'a' ≤ c && c ≤ 'z') s.data &&
  dotStarThen (fun c => 'A' ≤ c && c ≤ 'Z') s.data &&
  dotStarThen (fun c => '0' ≤ c && c ≤ '9') s.data &&
  s.data.all passwordChar && decide (8 ≤ s.data.length)

/-- The property the claim ascribes to `validatePassword`, stated from its
words: length at least eight, only characters of the allowed class, and at
least one lowercase letter, one uppercase letter and one digit. -/
def passwordSpec (s : String) : Prop :=
  8 ≤ s.data.length ∧ (∀ c ∈ s.data, passwordChar c = true) ∧
  (∃ c ∈ s.data, ('a' ≤ c ∧ c ≤ 'z')) ∧
  (∃ c ∈ s.data, ('A' ≤ c ∧ c ≤ 'Z')) ∧
  (∃ c ∈ s.data, ('0' ≤ c ∧ c ≤ '9'))

/-- A character of the password class is never a line terminator, so inside
an all-class string the lookahead dot never blocks. -/
theorem passwordChar_jsDot (c : Char) (h : passwordChar c = true) :
    jsDot c = true := by
  by_contra hc
  have hc2 : jsDot c = false := by
    cases h2 : jsDot c
    · rfl
    · exact absurd h2 hc
  have : c = '\n' ∨ c = '\r' ∨ c = ' ' ∨ c = ' ' := by
    simp [jsDot] at hc2
    tauto
  rcases this with h3 | h3 | h3 | h3 <;> subst h3 <;> simp [passwordChar] at h

/-- Over a list whose members all lie in the password class, the lookahead
`.*X` matches exactly when some member satisfies `X`. -/
theorem dotStarThen_eq_any (p : Char → Bool) (l : List Char)
    (h : ∀ c ∈ l, passwordChar c = true) :
    dotStarThen p l = l.any p := by
  induction l with
  | nil => rfl
  | cons c cs ih =>
      have hc : jsDot c = true := passwordChar_jsDot c (h c (by simp))
      have ihs := ih (fun x hx => h x (by simp [hx]))
      simp [dotStarThen, hc, ihs, List.any_cons]

/-- C10: `validatePassword` accepts exactly the strings of length at least
eight made only of ASCII letters, digits and the seven listed specials that
contain a lowercase letter, an uppercase letter and a digit; in particular
a password of length eight containing uppercase, lowercase and a digit but
also the character number sign is rejected. -/
theorem c10_validatePassword_characterisation :
    (∀ s : String, validatePassword s = true ↔ passwordSpec s) ∧
    validatePassword "Abcdef1#" = false ∧
    8 ≤ "Abcdef1#".data.length ∧
    (∃ c ∈ "Abcdef1#".data, ('a' ≤ c ∧ c ≤ 'z')) ∧
    (∃ c ∈ "Abcdef1#".data, ('A' ≤ c ∧ c ≤ 'Z')) ∧
    (∃ c ∈ "Abcdef1#".data, ('0' ≤ c ∧ c ≤ '9')) := by
  refine ⟨?_, by decide, by decide, by decide, by decide, by decide⟩
  intro s
  unfold validatePassword passwordSpec
  constructor
  · intro h
    simp only [Bool.and_eq_true, decide_eq_true_eq] at h
    obtain ⟨⟨⟨⟨hlow, hup⟩, hdig⟩, hall⟩, hlen⟩ := h
    have hall2 : ∀ c ∈ s.data, passwordChar c = true := by
      intro c hc
      exact List.all_eq_true.mp hall c hc
    rw [dotStarThen_eq_any _ _ hall2] at hlow hup hdig
    refine ⟨hlen, hall2, ?_, ?_, ?_⟩
    · obtain ⟨c, hc, hp⟩ := List.any_eq_true.mp hlow
      exact ⟨c, hc, by simpa using hp⟩
    · obtain ⟨c, hc, hp⟩ := List.any_eq_true.mp hup
      exact ⟨c, hc, by simpa using hp⟩
    · obtain ⟨c, hc, hp⟩ := List.any_eq_true.mp hdig
      exact ⟨c, hc, by simpa using hp⟩
  · rintro ⟨hlen, hall, ⟨cl, hcl, hcl2⟩, ⟨cu, hcu, hcu2⟩, ⟨cd, hcd, hcd2⟩⟩
    simp only [Bool.and_eq_true, decide_eq_true_eq]
    have hallb : s.data.all passwordChar = true :=
      List.all_eq_true.mpr hall
    refine ⟨⟨⟨⟨?_, ?_⟩, ?_⟩, hallb⟩, hlen⟩
    · rw [dotStarThen_eq_any _ _ hall]
      exact List.any_eq_true.mpr ⟨cl, hcl, by simpa using hcl2⟩
    · rw [dotStarThen_eq_any _ _ hall]
      exact List.any_eq_true.mpr ⟨cu, hcu, by simpa using hcu2⟩
    · rw [dotStarThen_eq_any _ _ hall]
      exact List.any_eq_true.mpr ⟨cd, hcd, by simpa using hcd2⟩

/-- Modelled from the spec: the processing status of a document
(the Document Lifecycle Manager of spec section 4.1 is backend code absent
from the repository snapshot; only the documents table schema and the
Document TS type are present, both listing the same four statuses). -/
inductive DocStatus where
  | pending
  | processing
  | completed
  | failed
deriving DecidableEq, Repr

/-- The fields of a document the status invariant concerns: the status, the
external-service reference (`notebooklm_document_id`) and the stored error
detail. -/
structure Doc where
  status : DocStatus
  notebooklmDocumentId : Option String
  processingError : Option String
deriving DecidableEq, Repr

/-- Modelled from the spec: `intake` persists a pending record, before any
processing outcome, with no external reference. -/
def intakeDoc : Doc :=
  { status := .pending, notebooklmDocumentId := none, processingError := none }

/-- The mutations the Document Lifecycle Manager applies after intake: the
asynchronous hand-off to processing, and `advance` to a terminal outcome. -/
inductive DocOp where
  | startProcessing
  | advanceCompleted (ref : String)
  | advanceFailed (err : String)
deriving DecidableEq, Repr

/-- Terminal statuses: completed and failed. -/
def docTerminal : DocStatus → Bool
  | .completed => true
  | .failed => true
  | _ => false

/-- Modelled from the spec: one mutation of a document.  Transitions
attempted from a terminal state are rejected as no-ops; the completed
transition stores the external reference, checked non-empty at this mutation
point (the invariant is enforced at every mutation, spec section 9); the
failed transition stores the error detail and holds no reference. -/
def docStep (d : Doc) (op : DocOp) : Doc :=
  if docTerminal d.status then d
  else
    match op with
    | .startProcessing =>
        if d.status = .pending then { d with status := .processing } else d
    | .advanceCompleted ref =>
        if ref = "" then d
        else { d with status := .completed, notebooklmDocumentId := some ref }
    | .advanceFailed err =>
        { d with status := .failed, processingError := some err,
                 notebooklmDocumentId := none }

/-- All states of one document lifecycle: intake followed by any sequence of
attempted mutations. -/
def runDoc (ops : List DocOp) : Doc := ops.foldl docStep intakeDoc

/-- Presence of a non-empty external-service reference. -/
def docRefPresent (d : Doc) : Bool :=
  match d.notebooklmDocumentId with
  | some r => !(decide (r = ""))
  | none => false

/-- The claim's invariant: status is completed exactly when a non-empty
external reference is present, and a processing or failed status implies the
reference is absent. -/
def docInv (d : Doc) : Bool :=
  (decide (d.status = DocStatus.completed) == docRefPresent d) &&
  (!(decide (d.status = DocStatus.processing) ||
      decide (d.status = DocStatus.failed)) ||
    decide (d.notebooklmDocumentId = none))

/-- The inductive strengthening: any non-completed document holds no
reference at all. -/
def docInvStrong (d : Doc) : Bool :=
  if d.status = DocStatus.completed then docRefPresent d
  else decide (d.notebooklmDocumentId = none)

theorem docInvStrong_imp_docInv (d : Doc) (h : docInvStrong d = true) :
    docInv d = true := by
  obtain ⟨st, ref, err⟩ := d
  cases st with
  | completed =>
      have h2 : docRefPresent ⟨DocStatus.completed, ref, err⟩ = true := by
        simpa [docInvStrong] using h
      simp [docInv, h2]
  | pending =>
      have h2 : ref = none := by simpa [docInvStrong] using h
      subst h2
      simp [docInv, docRefPresent]
  | processing =>
      have h2 : ref = none := by simpa [docInvStrong] using h
      subst h2
      simp [docInv, docRefPresent]
  | failed =>
      have h2 : ref = none := by simpa [docInvStrong] using h
      subst h2
      simp [docInv, docRefPresent]

theorem docStep_preserves_strong (d : Doc) (op : DocOp)
    (h : docInvStrong d = true) : docInvStrong (docStep d op) = true := by
  obtain ⟨st, ref, err⟩ := d
  cases st with
  | completed => simpa [docStep, docTerminal] using h
  | failed => simpa [docStep, docTerminal] using h
  | pending =>
      have hnone : ref = none := by simpa [docInvStrong] using h
      subst hnone
      cases op with
      | startProcessing => simp [docStep, docTerminal, docInvStrong]
      | advanceCompleted r =>
          by_cases hr : r = ""
          · simp [docStep, docTerminal, hr, docInvStrong]
          · simp [docStep, docTerminal, hr, docInvStrong, docRefPresent]
      | advanceFailed e => simp [docStep, docTerminal, docInvStrong]
  | processing =>
      have hnone : ref = none := by simpa [docInvStrong] using h
      subst hnone
      cases op with
      | startProcessing => simp [docStep, docTerminal, docInvStrong]
      | advanceCompleted r =>
          by_cases hr : r = ""
          · simp [docStep, docTerminal, hr, docInvStrong]
          · simp [docStep, docTerminal, hr, docInvStrong, docRefPresent]
      | advanceFailed e => simp [docStep, docTerminal, docInvStrong]

/-- C5: every document state reachable through the lifecycle — intake
followed by any sequence of mutations — satisfies the invariant: status
completed exactly when the external-service reference is present and
non-empty, and a processing or failed status implies the reference is
absent; so the invariant is preserved at every mutation point. -/
theorem c5_document_status_reference_invariant (ops : List DocOp) :
    docInv (runDoc ops) = true := by
  apply docInvStrong_imp_docInv
  have main : ∀ (l : List DocOp) (d : Doc), docInvStrong d = true →
      docInvStrong (l.foldl docStep d) = true := by
    intro l
    induction l with
    | nil => intro d hd; exact hd
    | cons op rest ih =>
        intro d hd
        exact ih (docStep d op) (docStep_preserves_strong d op hd)
  exact main ops intakeDoc rfl

/-- A row of the queries table as far as the rating CHECK constraint is
concerned: the row id and the nullable `user_rating` column. -/
structure RatingRow where
  id : Nat
  userRating : Option Int
deriving DecidableEq, Repr

/-- The CHECK constraint of the queries table,
`CHECK (user_rating >= 1 AND user_rating <= 5)`: under SQL three-valued
logic a NULL rating passes (the check is only violated when it evaluates to
false), and a present rating must lie between 1 and 5. -/
def ratingCheck : Option Int → Bool
  | none => true
  | some v => decide (1 ≤ v) && decide (v ≤ 5)

/-- Writes to the queries table that touch the rating: inserting a row, and
attaching a rating post-hoc; the store re-evaluates the CHECK on each. -/
inductive RatingOp where
  | insertRow (row : RatingRow)
  | setRating (rowId : Nat) (rating : Option Int)
deriving DecidableEq, Repr

/-- One write against the table: a write whose resulting row violates the
CHECK is rejected and leaves the table unchanged. -/
def ratingApply (t : List RatingRow) : RatingOp → List RatingRow
  | .insertRow row => if ratingCheck row.userRating then row :: t else t
  | .setRating i r =>
      if ratingCheck r then
        t.map (fun q => if q.id == i then { q with userRating := r } else q)
      else t

/-- The table contents after any sequence of writes, starting empty. -/
def runRatings (ops : List RatingOp) : List RatingRow :=
  ops.foldl ratingApply []

theorem ratingApply_preserves (t : List RatingRow) (op : RatingOp)
    (h : ∀ q ∈ t, ratingCheck q.userRating = true) :
    ∀ q ∈ ratingApply t op, ratingCheck q.userRating = true := by
  cases op with
  | insertRow row =>
      intro q hq
      simp only [ratingApply] at hq
      by_cases hr : ratingCheck row.userRating = true
      · rw [if_pos hr] at hq
        rcases List.mem_cons.mp hq with h1 | h1
        · rw [h1]; exact hr
        · exact h q h1
      · rw [if_neg hr] at hq
        exact h q hq
  | setRating i r =>
      intro q hq
      simp only [ratingApply] at hq
      by_cases hr : ratingCheck r = true
      · rw [if_pos hr] at hq
        obtain ⟨q0, hq0, hmap⟩ := List.mem_map.mp hq
        by_cases hid : (q0.id == i) = true
        · rw [if_pos hid] at hmap
          rw [← hmap]
          exact hr
        · rw [if_neg hid] at hmap
          rw [← hmap]
          exact h q0 hq0
      · rw [if_neg hr] at hq
        exact h q hq

/-- C7: after any sequence of writes to the queries table, every stored row's
user rating, when present, lies between 1 and 5 inclusive — the CHECK
constraint rejects every other write. -/
theorem c7_user_rating_between_one_and_five (ops : List RatingOp) :
    (runRatings ops).all
      (fun q => match q.userRating with
        | none => true
        | some v => decide (1 ≤ v ∧ v ≤ 5)) = true := by
  have main : ∀ (l : List RatingOp) (t : List RatingRow),
      (∀ q ∈ t, ratingCheck q.userRating = true) →
      ∀ q ∈ l.foldl ratingApply t, ratingCheck q.userRating = true := by
    intro l
    induction l with
    | nil => intro t ht; exact ht
    | cons op rest ih =>
        intro t ht
        exact ih (ratingApply t op) (ratingApply_preserves t op ht)
  rw [List.all_eq_true]
  intro q hq
  have hq2 := main ops [] (by intro x hx; cases hx) q hq
  cases hv : q.userRating with
  | none => simp
  | some v =>
      rw [hv] at hq2
      simp only [ratingCheck, Bool.and_eq_true, decide_eq_true_eq] at hq2
      simp only [decide_eq_true_eq]
      exact hq2

/-- Modelled from the spec: one row of the queries store as threading sees
it — the Query Orchestrator (spec section 4.2) is backend code absent from
the repository snapshot; only the queries table schema and the Query TS type
(both carrying `conversation_id` and `parent_query_id`) are present.
Conversation ids are modelled as naturals minted from the store. -/
structure QueryRow where
  id : Nat
  userId : Nat
  conversationId : Nat
  parentQueryId : Option Nat
deriving DecidableEq, Repr

/-- The orchestrator's store: the query rows and the id the next row will
receive. -/
structure OrchState where
  queries : List QueryRow
  nextQueryId : Nat
deriving DecidableEq, Repr

/-- Modelled from the spec: minting a fresh conversation id, unique among all
conversation ids present in the store. -/
def freshConversationId (s : OrchState) : Nat :=
  (s.queries.map (fun q => q.conversationId)).foldl max 0 + 1

/-- Threading failure: parent missing or owned by another user. -/
inductive ThreadError where
  | invalidThread
deriving DecidableEq, Repr

/-- The row a submission appends: the next id, the submitting user, the
resolved conversation id and the parent pointer. -/
def newRow (s : OrchState) (userId cid : Nat) (parent : Option Nat) :
    QueryRow :=
  { id := s.nextQueryId, userId := userId, conversationId := cid,
    parentQueryId := parent }

/-- Append a row and advance the id counter. -/
def pushRow (s : OrchState) (row : QueryRow) : OrchState :=
  { queries := row :: s.queries, nextQueryId := s.nextQueryId + 1 }

/-- Modelled from the spec: `submit` resolves threading before the external
call.  With a parent id the parent must exist and belong to the same user and
the conversation id is copied from the parent; with no parent the supplied
conversation id is used, or a fresh one is minted when none is supplied. -/
def submitQuery (s : OrchState) (userId : Nat) (parent : Option Nat)
    (suppliedConv : Option Nat) : Except ThreadError (OrchState × QueryRow) :=
  match parent with
  | some pid =>
      match s.queries.find? (fun q => q.id == pid) with
      | none => .error .invalidThread
      | some pq =>
          if pq.userId == userId then
            let row := newRow s userId pq.conversationId (some pid)
            .ok (pushRow s row, row)
          else .error .invalidThread
  | none =>
      let cid :=
        match suppliedConv with
        | some cc => cc
        | none => freshConversationId s
      let row := newRow s userId cid none
      .ok (pushRow s row, row)

/-- A submission attempt against the store. -/
inductive OrchOp where
  | submit (userId : Nat) (parent : Option Nat) (suppliedConv : Option Nat)
deriving DecidableEq, Repr

/-- Apply one submission: a rejected submission leaves the store unchanged. -/
def orchApply (s : OrchState) : OrchOp → OrchState
  | .submit u p c =>
      match submitQuery s u p c with
      | .ok r => r.1
      | .error _ => s

/-- The empty store. -/
def initialOrchState : OrchState := { queries := [], nextQueryId := 0 }

/-- The store after any sequence of submission attempts. -/
def runOrch (ops : List OrchOp) : OrchState :=
  ops.foldl orchApply initialOrchState

/-- The claim's threading property over a store: every query with a parent
pointer has the conversation id of every row carrying the parent's id. -/
def threadOk (s : OrchState) : Bool :=
  s.queries.all (fun q =>
    match q.parentQueryId with
    | none => true
    | some pid =>
        s.queries.all (fun pq =>
          !(pq.id == pid) || (pq.conversationId == q.conversationId)))

/-- The claim's minting property at a store: submitting with no parent and no
supplied conversation id succeeds, yields a parentless row, and its
conversation id differs from every conversation id already stored. -/
def mintedFreshOk (s : OrchState) (u : Nat) : Bool :=
  match submitQuery s u none none with
  | .ok r =>
      (r.2.parentQueryId == none) &&
        s.queries.all (fun q => !(q.conversationId == r.2.conversationId))
  | .error _ => false

/-- The inductive invariant of the orchestrator's store: ids of rows and of
parent pointers stay below the next id, rows sharing an id share a
conversation id, and every parent pointer's target rows share the child's
conversation id. -/
def OrchInv (s : OrchState) : Prop :=
  (∀ q ∈ s.queries, q.id < s.nextQueryId) ∧
  (∀ q ∈ s.queries, ∀ pid, q.parentQueryId = some pid →
    pid < s.nextQueryId) ∧
  (∀ a ∈ s.queries, ∀ b ∈ s.queries, a.id = b.id →
    a.conversationId = b.conversationId) ∧
  (∀ q ∈ s.queries, ∀ pid, q.parentQueryId = some pid →
    ∀ pq ∈ s.queries, pq.id = pid → pq.conversationId = q.conversationId)

theorem orchInv_cons (s : OrchState) (row : QueryRow) (h : OrchInv s)
    (hid : row.id = s.nextQueryId)
    (hp : ∀ pid, row.parentQueryId = some pid →
      pid < s.nextQueryId ∧
      ∀ pq ∈ s.queries, pq.id = pid →
        pq.conversationId = row.conversationId) :
    OrchInv (pushRow s row) := by
  obtain ⟨h1, h2, h3, h4⟩ := h
  unfold OrchInv pushRow
  refine ⟨?_, ?_, ?_, ?_⟩
  · intro q hq
    rcases List.mem_cons.mp hq with rfl | hq2
    · rw [hid]; exact Nat.lt_succ_self _
    · exact Nat.lt_succ_of_lt (h1 q hq2)
  · intro q hq pid hpid
    rcases List.mem_cons.mp hq with rfl | hq2
    · exact Nat.lt_succ_of_lt (hp pid hpid).1
    · exact Nat.lt_succ_of_lt (h2 q hq2 pid hpid)
  · intro a ha b hb hab
    rcases List.mem_cons.mp ha with rfl | ha2
    · rcases List.mem_cons.mp hb with rfl | hb2
      · rfl
      · exfalso
        have hb3 := h1 b hb2
        rw [← hab, hid] at hb3
        omega
    · rcases List.mem_cons.mp hb with rfl | hb2
      · exfalso
        have ha3 := h1 a ha2
        rw [hab, hid] at ha3
        omega
      · exact h3 a ha2 b hb2 hab
  · intro q hq pid hpid pq hpq hpqid
    rcases List.mem_cons.mp hq with rfl | hq2
    · rcases List.mem_cons.mp hpq with rfl | hpq2
      · rfl
      · exact (hp pid hpid).2 pq hpq2 hpqid
    · rcases List.mem_cons.mp hpq with rfl | hpq2
      · exfalso
        have hlt := h2 q hq2 pid hpid
        rw [hid] at hpqid
        omega
      · exact h4 q hq2 pid hpid pq hpq2 hpqid

theorem orchApply_preserves (s : OrchState) (op : OrchOp) (h : OrchInv s) :
    OrchInv (orchApply s op) := by
  cases op with
  | submit u p c =>
    cases p with
    | none =>
        have step : ∀ cid : Nat,
            OrchInv (pushRow s (newRow s u cid none)) := by
          intro cid
          apply orchInv_cons s _ h rfl
          intro pid hpid
          simp [newRow] at hpid
        cases c with
        | some cc => exact step cc
        | none => exact step (freshConversationId s)
    | some pid =>
        cases hf : s.queries.find? (fun q => q.id == pid) with
        | none =>
            have hres : orchApply s (.submit u (some pid) c) = s := by
              simp [orchApply, submitQuery, hf]
            rw [hres]; exact h
        | some pq =>
            by_cases hu : (pq.userId == u) = true
            · have hres : orchApply s (.submit u (some pid) c) =
                  pushRow s (newRow s u pq.conversationId (some pid)) := by
                simp [orchApply, submitQuery, hf, hu]
              rw [hres]
              have hmem : pq ∈ s.queries := List.mem_of_find?_eq_some hf
              have hpqid : pq.id = pid := by
                have hps := List.find?_some hf
                simpa [beq_iff_eq] using hps
              apply orchInv_cons s _ h rfl
              intro pid2 hpid2
              have hpe : pid2 = pid := by
                simp [newRow] at hpid2
                exact hpid2.symm
              subst hpe
              constructor
              · rw [← hpqid]
                exact h.1 pq hmem
              · intro pq2 hpq2 hpq2id
                exact h.2.2.1 pq2 hpq2 pq hmem (by rw [hpq2id, hpqid])
            · have hres : orchApply s (.submit u (some pid) c) = s := by
                simp [orchApply, submitQuery, hf, hu]
              rw [hres]; exact h

theorem threadOk_of_inv (s : OrchState) (h : OrchInv s) :
    threadOk s = true := by
  unfold threadOk
  rw [List.all_eq_true]
  intro q hq
  cases hpid : q.parentQueryId with
  | none => simp [hpid]
  | some pid =>
      simp only [hpid]
      rw [List.all_eq_true]
      intro pq hpq
      by_cases heq : pq.id = pid
      · have hconv := h.2.2.2 q hq pid hpid pq hpq heq
        simp [heq, hconv]
      · simp [heq]

theorem foldl_max_le (l : List Nat) (a : Nat) : a ≤ l.foldl max a := by
  induction l generalizing a with
  | nil => exact Nat.le_refl a
  | cons c cs ih => exact Nat.le_trans (Nat.le_max_left a c) (ih (max a c))

theorem mem_le_foldl_max (l : List Nat) (a x : Nat) (hx : x ∈ l) :
    x ≤ l.foldl max a := by
  induction l generalizing a with
  | nil => cases hx
  | cons c cs ih =>
      rcases List.mem_cons.mp hx with rfl | h2
      · exact Nat.le_trans (Nat.le_max_right a x) (foldl_max_le cs (max a x))
      · exact ih (max a c) h2

theorem freshConversationId_not_mem (s : OrchState) :
    ∀ q ∈ s.queries, q.conversationId ≠ freshConversationId s := by
  intro q hq
  have hle : q.conversationId ≤
      (s.queries.map (fun q => q.conversationId)).foldl max 0 :=
    mem_le_foldl_max _ 0 _ (List.mem_map_of_mem _ hq)
  unfold freshConversationId
  omega

theorem mintedFreshOk_holds (s : OrchState) (u : Nat) :
    mintedFreshOk s u = true := by
  unfold mintedFreshOk submitQuery
  rw [Bool.and_eq_true]
  constructor
  · rfl
  · rw [List.all_eq_true]
    intro q hq
    have hne := freshConversationId_not_mem s q hq
    simp [hne, newRow]

/-- C6: in every store reachable through any sequence of submissions, each
query with a parent pointer shares its conversation id with every row
carrying the parent's id, and a submission with no parent and no supplied
conversation id receives a freshly minted conversation id distinct from
every conversation id already stored. -/
theorem c6_conversation_threading (ops : List OrchOp) (u : Nat) :
    threadOk (runOrch ops) = true ∧ mintedFreshOk (runOrch ops) u = true := by
  constructor
  · apply threadOk_of_inv
    have main : ∀ (l : List OrchOp) (s : OrchState), OrchInv s →
        OrchInv (l.foldl orchApply s) := by
      intro l
      induction l with
      | nil => intro s hs; exact hs
      | cons op rest ih =>
          intro s hs
          exact ih (orchApply s op) (orchApply_preserves s op hs)
    apply main
    refine ⟨?_, ?_, ?_, ?_⟩ <;> intro q hq <;> cases hq
  · exact mintedFreshOk_holds _ u

end AstraNote
